import Mathlib

/-!
Shallow embedding of `src/convert_image_to_icons.py` (core functions:
`analyze_background_color`, `find_content_bbox`, `create_icon_from_cropped`).

Modelling conventions:
* An image is a pixel grid of RGB values; channel values are rationals
  (the script converts pixels to `float32` and does exact-valued color math
  on small integers, modelled here with exact rational arithmetic).
* Python `int(x)` truncates toward zero: `pyInt`.
* Python `round(x)` rounds half to even: `pyRound`.
* Python `//` on integers floors: `Int.fdiv`.
* `numpy` slices `a[0:m]` / `a[-m:]` clip to the array bounds, and `a[-0:]`
  is `a[0:]`, the whole axis; `edgeSamples` reproduces this.
* `np.mean` of an empty sample emits only a RuntimeWarning and returns NaN;
  `analyze_background_color` returns `Option`, where `none` stands for the
  NaN color value that is *returned normally*, not raised as an error.
* A comparison `NaN > tolerance` is false, which `find_content_bbox`
  reflects by taking the no-content branch when the background is `none`.
* Dividing a Python float by zero raises `ZeroDivisionError`, so
  `create_icon_from_cropped` returns `Except String Img` and errors exactly
  when `max width height = 0`.
* The LANCZOS resampling kernel only affects the pixel *values* of the
  resized content, never its dimensions or placement; no property below
  constrains those values, so the kernel is a parameter `resample` giving
  the pixel at `(x, y)` of the source resized to `nw × nh`. PIL's
  `Image.resize((nw, nh))` always returns an image of exactly the requested
  size, and `Image.paste` clips silently at the canvas bounds, which the
  pixel function of the result encodes.
-/

/-- An RGB color: (R, G, B) channel values. -/
abbrev Col : Type := ℚ × ℚ × ℚ

/-- An RGB image: dimensions plus a pixel function (x = column, y = row).
The script always coerces to mode RGB, so there is no alpha channel. -/
structure Img where
  width : ℕ
  height : ℕ
  pix : ℕ → ℕ → Col

/-- Python `int(x)`: truncation toward zero. -/
def pyInt (q : ℚ) : ℤ :=
  if q < 0 then -(Int.floor (-q)) else Int.floor q

/-- Python 3 `round(x)`: round half to even (banker's rounding). -/
def pyRound (q : ℚ) : ℤ :=
  let f := Int.floor q
  let r := q - f
  if r < 1/2 then f
  else if 1/2 < r then f + 1
  else if 2 ∣ f then f else f + 1

/-- Round half away from zero (the other rounding rule the spec admits). -/
def roundHalfAway (q : ℚ) : ℤ :=
  if q < 0 then -(Int.floor (-q + 1/2)) else Int.floor (q + 1/2)

/-- The pixels of the rectangular block rows `[r0, r1) × cols [c0, c1)` of an
image, in row-major order (the order of a reshaped numpy slice). -/
def block (img : Img) (r0 r1 c0 c1 : ℕ) : List Col :=
  (List.range (r1 - r0)).flatMap fun i =>
    (List.range (c1 - c0)).map fun j => img.pix (c0 + j) (r0 + i)

/-- `margin = int(min(h, w) * margin_percent / 100)` from
`analyze_background_color`. For the nonnegative `margin_percent` values every
property below uses, the truncation is a floor and the result is a natural
number. -/
def marginOf (img : Img) (margin_percent : ℚ) : ℕ :=
  (pyInt ((min img.height img.width : ℚ) * margin_percent / 100)).toNat

/-- The multiset of edge samples gathered by `analyze_background_color`:
`img[0:m]`, `img[-m:]`, `img[:, 0:m]`, `img[:, -m:]`, stacked. numpy slice
semantics: `[0:m]` clips at the axis length, and `[-m:]` starts at
`max(len - m, 0)` when `m ≥ 1` but is the whole axis when `m = 0`. -/
def edgeSamples (img : Img) (m : ℕ) : List Col :=
  block img 0 (min m img.height) 0 img.width
    ++ block img (if m = 0 then 0 else img.height - m) img.height 0 img.width
    ++ block img 0 img.height 0 (min m img.width)
    ++ block img 0 img.height (if m = 0 then 0 else img.width - m) img.width

/-- Channel-wise arithmetic mean of a list of colors (`np.mean(axis=0)`). -/
def listMeanColor (l : List Col) : Col :=
  ((l.map fun p => p.1).sum / l.length,
   (l.map fun p => p.2.1).sum / l.length,
   (l.map fun p => p.2.2).sum / l.length)

/-- `analyze_background_color(img, margin_percent)`: mean color of the four
edge bands. `none` models the NaN mean numpy returns (with only a warning,
no exception) when the collected sample is empty. -/
def analyze_background_color (img : Img) (margin_percent : ℚ) : Option Col :=
  let samples := edgeSamples img (marginOf img margin_percent)
  if samples.length = 0 then none else some (listMeanColor samples)

/-- Squared Euclidean RGB distance between two colors. -/
def dist2 (a b : Col) : ℚ :=
  (a.1 - b.1) ^ 2 + (a.2.1 - b.2.1) ^ 2 + (a.2.2 - b.2.2) ^ 2

/-- The content test of `find_content_bbox`:
`sqrt((r-bg_r)^2 + (g-bg_g)^2 + (b-bg_b)^2) > tolerance`. Stated without a
square root: for `tolerance ≥ 0` the comparison is equivalent to
`dist2 > tolerance^2`, and for `tolerance < 0` it always holds because a
square root is nonnegative. -/
def isContent (px bg : Col) (tol : ℚ) : Bool :=
  if tol < 0 then true else decide (tol ^ 2 < dist2 px bg)

/-- `rows = np.any(is_content, axis=1); np.where(rows)[0]`: the ascending
list of indices of content-bearing rows. -/
def contentRows (img : Img) (bg : Col) (tol : ℚ) : List ℕ :=
  (List.range img.height).filter fun y =>
    (List.range img.width).any fun x => isContent (img.pix x y) bg tol

/-- `cols = np.any(is_content, axis=0); np.where(cols)[0]`: the ascending
list of indices of content-bearing columns. -/
def contentCols (img : Img) (bg : Col) (tol : ℚ) : List ℕ :=
  (List.range img.width).filter fun x =>
    (List.range img.height).any fun y => isContent (img.pix x y) bg tol

/-- `find_content_bbox(img, margin_percent, tolerance)`: returns
`(left, top, right, bottom)`, right/bottom exclusive. When no pixel passes
the content test (also when the background is NaN, since `NaN > t` is
false), falls back to the full image bounds. -/
def find_content_bbox (img : Img) (margin_percent tol : ℚ) : ℕ × ℕ × ℕ × ℕ :=
  match analyze_background_color img margin_percent with
  | none => (0, 0, img.width, img.height)
  | some bg =>
    let rows := contentRows img bg tol
    let cols := contentCols img bg tol
    if rows.isEmpty || cols.isEmpty then (0, 0, img.width, img.height)
    else (cols.head?.getD 0, rows.head?.getD 0,
          cols.getLast?.getD 0 + 1, rows.getLast?.getD 0 + 1)

/-- `scale = (icon_size * scale_up) / max_dim` from `create_icon_from_cropped`. -/
def iconScale (cropped : Img) (icon_size : ℕ) (scale_up : ℚ) : ℚ :=
  (icon_size * scale_up) / (max cropped.width cropped.height : ℚ)

/-- `new_w = max(1, int(round(width * scale)))`. -/
def iconNewW (cropped : Img) (icon_size : ℕ) (scale_up : ℚ) : ℤ :=
  max 1 (pyRound (cropped.width * iconScale cropped icon_size scale_up))

/-- `new_h = max(1, int(round(height * scale)))`. -/
def iconNewH (cropped : Img) (icon_size : ℕ) (scale_up : ℚ) : ℤ :=
  max 1 (pyRound (cropped.height * iconScale cropped icon_size scale_up))

/-- `x_offset = (icon_size - new_w) // 2` (Python floor division). -/
def iconXOff (cropped : Img) (icon_size : ℕ) (scale_up : ℚ) : ℤ :=
  Int.fdiv ((icon_size : ℤ) - iconNewW cropped icon_size scale_up) 2

/-- `y_offset = (icon_size - new_h) // 2` (Python floor division). -/
def iconYOff (cropped : Img) (icon_size : ℕ) (scale_up : ℚ) : ℤ :=
  Int.fdiv ((icon_size : ℤ) - iconNewH cropped icon_size scale_up) 2

/-- `bg_tuple = tuple(int(c) for c in bg_color)`: the canvas fill color,
each channel truncated toward zero by Python `int`. -/
def iconFill (bg_color : Col) : Col :=
  ((pyInt bg_color.1 : ℚ), (pyInt bg_color.2.1 : ℚ), (pyInt bg_color.2.2 : ℚ))

/-- `create_icon_from_cropped(cropped, bg_color, icon_size, scale_up)`.
Errors exactly when the crop is 0×0 (`scale = ... / max_dim` raises
`ZeroDivisionError`). Otherwise builds the `icon_size × icon_size` RGB
canvas filled with `iconFill bg_color` and pastes the resized content at
`(x_offset, y_offset)`; PIL's `paste` silently clips at the canvas bounds,
so a canvas pixel shows content exactly when it lies inside the pasted
rectangle. -/
def create_icon_from_cropped (resample : Img → ℕ → ℕ → ℕ → ℕ → Col)
    (cropped : Img) (bg_color : Col) (icon_size : ℕ) (scale_up : ℚ) :
    Except String Img :=
  if max cropped.width cropped.height = 0 then
    .error "ZeroDivisionError: float division by zero"
  else
    let new_w := iconNewW cropped icon_size scale_up
    let new_h := iconNewH cropped icon_size scale_up
    let x_offset := iconXOff cropped icon_size scale_up
    let y_offset := iconYOff cropped icon_size scale_up
    .ok { width := icon_size, height := icon_size,
          pix := fun x y =>
            if x_offset ≤ (x : ℤ) ∧ (x : ℤ) < x_offset + new_w ∧
               y_offset ≤ (y : ℤ) ∧ (y : ℤ) < y_offset + new_h then
              resample cropped new_w.toNat new_h.toNat
                ((x : ℤ) - x_offset).toNat ((y : ℤ) - y_offset).toNat
            else iconFill bg_color }

/-! ### Helper lemmas -/

theorem pyRound_intCast (k : ℤ) : pyRound (k : ℚ) = k := by
  simp [pyRound]

theorem pyRound_natCast (n : ℕ) : pyRound (n : ℚ) = n := by
  have h : ((n : ℤ) : ℚ) = (n : ℚ) := by push_cast; ring
  rw [← h, pyRound_intCast]

theorem pyInt_nonneg_eq_floor (q : ℚ) (h : 0 ≤ q) : pyInt q = Int.floor q := by
  simp [pyInt, not_lt.mpr h]

theorem zero_fdiv_two : Int.fdiv 0 2 = 0 := rfl

theorem create_icon_ok (resample : Img → ℕ → ℕ → ℕ → ℕ → Col) (cropped : Img)
    (bg : Col) (s : ℕ) (su : ℚ) (h : max cropped.width cropped.height ≠ 0) :
    ∃ icon, create_icon_from_cropped resample cropped bg s su = .ok icon ∧
      icon.width = s ∧ icon.height = s := by
  rw [create_icon_from_cropped, if_neg h]
  exact ⟨_, rfl, rfl, rfl⟩

/-- C1: for a square crop (width = height ≥ 1) and positive `icon_size`,
with `scale_up = 1`, the resized content has both dimensions (hence its
larger dimension) exactly `icon_size`, and the paste offsets
`(icon_size - new_dim) // 2` are 0 on both axes, i.e. the content is
centered. -/
theorem icon_square_fit (cropped : Img) (s : ℕ)
    (hsq : cropped.width = cropped.height) (hw : 1 ≤ cropped.width)
    (hs : 1 ≤ s) :
    iconNewW cropped s 1 = s ∧ iconNewH cropped s 1 = s ∧
    iconXOff cropped s 1 = 0 ∧ iconYOff cropped s 1 = 0 := by
  have hne : (cropped.width : ℚ) ≠ 0 := Nat.cast_ne_zero.mpr (by omega)
  have hscale : iconScale cropped s 1 = (s : ℚ) / cropped.width := by
    rw [iconScale, ← hsq, max_self, mul_one]
  have hws : (cropped.width : ℚ) * iconScale cropped s 1 = (s : ℚ) := by
    rw [hscale, mul_comm, div_mul_cancel₀ _ hne]
  have hhs : (cropped.height : ℚ) * iconScale cropped s 1 = (s : ℚ) := by
    rw [← hsq, hws]
  have hW : iconNewW cropped s 1 = s := by
    rw [iconNewW, hws, pyRound_natCast, max_eq_right (by exact_mod_cast hs)]
  have hH : iconNewH cropped s 1 = s := by
    rw [iconNewH, hhs, pyRound_natCast, max_eq_right (by exact_mod_cast hs)]
  refine ⟨hW, hH, ?_, ?_⟩
  · rw [iconXOff, hW, sub_self, zero_fdiv_two]
  · rw [iconYOff, hH, sub_self, zero_fdiv_two]

theorem icon_square_fit_witness :
    iconNewW ⟨3, 3, fun _ _ => (0, 0, 0)⟩ 5 1 = 5 ∧
    iconNewH ⟨3, 3, fun _ _ => (0, 0, 0)⟩ 5 1 = 5 ∧
    iconXOff ⟨3, 3, fun _ _ => (0, 0, 0)⟩ 5 1 = 0 ∧
    iconYOff ⟨3, 3, fun _ _ => (0, 0, 0)⟩ 5 1 = 0 :=
  icon_square_fit ⟨3, 3, fun _ _ => (0, 0, 0)⟩ 5 rfl (by norm_num) (by norm_num)

/-- C4: for a 100×200 crop, `icon_size = 50`, `scale_up = 1`: scale = 1/4,
the content is resized to 25×50, the canvas is 50×50, and the content is
placed at `x_offset = 12`, `y_offset = 0`. -/
theorem icon_100x200_scenario (resample : Img → ℕ → ℕ → ℕ → ℕ → Col)
    (cropped : Img) (bg : Col)
    (hw : cropped.width = 100) (hh : cropped.height = 200) :
    iconScale cropped 50 1 = 1/4 ∧ iconNewW cropped 50 1 = 25 ∧
    iconNewH cropped 50 1 = 50 ∧ iconXOff cropped 50 1 = 12 ∧
    iconYOff cropped 50 1 = 0 ∧
    ∃ icon, create_icon_from_cropped resample cropped bg 50 1 = .ok icon ∧
      icon.width = 50 ∧ icon.height = 50 := by
  have hscale : iconScale cropped 50 1 = 1/4 := by
    rw [iconScale, hw, hh]; norm_num
  have h1 : (cropped.width : ℚ) * iconScale cropped 50 1 = ((25 : ℤ) : ℚ) := by
    rw [hw, hscale]; norm_num
  have h2 : (cropped.height : ℚ) * iconScale cropped 50 1 = ((50 : ℤ) : ℚ) := by
    rw [hh, hscale]; norm_num
  have hW : iconNewW cropped 50 1 = 25 := by
    rw [iconNewW, h1, pyRound_intCast]; rfl
  have hH : iconNewH cropped 50 1 = 50 := by
    rw [iconNewH, h2, pyRound_intCast]; rfl
  refine ⟨hscale, hW, hH, ?_, ?_, ?_⟩
  · rw [iconXOff, hW]; rfl
  · rw [iconYOff, hH]; rfl
  · exact create_icon_ok resample cropped bg 50 1 (by rw [hw, hh]; norm_num)

theorem icon_100x200_scenario_witness :
    iconScale ⟨100, 200, fun _ _ => (0, 0, 0)⟩ 50 1 = 1/4 ∧
    iconNewW ⟨100, 200, fun _ _ => (0, 0, 0)⟩ 50 1 = 25 ∧
    iconNewH ⟨100, 200, fun _ _ => (0, 0, 0)⟩ 50 1 = 50 ∧
    iconXOff ⟨100, 200, fun _ _ => (0, 0, 0)⟩ 50 1 = 12 ∧
    iconYOff ⟨100, 200, fun _ _ => (0, 0, 0)⟩ 50 1 = 0 ∧
    ∃ icon, create_icon_from_cropped (fun _ _ _ _ _ => (0, 0, 0))
        ⟨100, 200, fun _ _ => (0, 0, 0)⟩ (0, 0, 0) 50 1 = .ok icon ∧
      icon.width = 50 ∧ icon.height = 50 :=
  icon_100x200_scenario (fun _ _ _ _ _ => (0, 0, 0))
    ⟨100, 200, fun _ _ => (0, 0, 0)⟩ (0, 0, 0) rfl rfl

theorem iconNewW_compute (cropped : Img) (s : ℕ) (su : ℚ) (k : ℤ)
    (h : (cropped.width : ℚ) * iconScale cropped s su = (k : ℚ)) (hk : 1 ≤ k) :
    iconNewW cropped s su = k := by
  rw [iconNewW, h, pyRound_intCast, max_eq_right hk]

theorem iconNewH_compute (cropped : Img) (s : ℕ) (su : ℚ) (k : ℤ)
    (h : (cropped.height : ℚ) * iconScale cropped s su = (k : ℚ)) (hk : 1 ≤ k) :
    iconNewH cropped s su = k := by
  rw [iconNewH, h, pyRound_intCast, max_eq_right hk]

/-- C6: for any crop with both dimensions ≥ 1, any positive `icon_size` and
*any* `scale_up` (including overflow and negative-offset situations), the
result is exactly one `icon_size × icon_size` RGB image; each canvas pixel
is either the fill color or a sample of the resized content taken at a
coordinate inside the content rectangle — content outside the canvas is
clipped away and never changes the output size. -/
theorem icon_always_target_size (resample : Img → ℕ → ℕ → ℕ → ℕ → Col)
    (cropped : Img) (bg : Col) (s : ℕ) (su : ℚ)
    (hw : 1 ≤ cropped.width) (hh : 1 ≤ cropped.height) (hs : 1 ≤ s) :
    ∃ icon, create_icon_from_cropped resample cropped bg s su = .ok icon ∧
      icon.width = s ∧ icon.height = s ∧
      ∀ x y, x < s → y < s →
        icon.pix x y = iconFill bg ∨
        ∃ u v, u < (iconNewW cropped s su).toNat ∧
          v < (iconNewH cropped s su).toNat ∧
          icon.pix x y = resample cropped (iconNewW cropped s su).toNat
            (iconNewH cropped s su).toNat u v := by
  have hmax : max cropped.width cropped.height ≠ 0 := by omega
  rw [create_icon_from_cropped, if_neg hmax]
  refine ⟨_, rfl, rfl, rfl, ?_⟩
  intro x y hx hy
  have h1W : 1 ≤ iconNewW cropped s su := le_max_left 1 _
  have h1H : 1 ≤ iconNewH cropped s su := le_max_left 1 _
  simp only
  split
  case isTrue hc =>
    right
    obtain ⟨c1, c2, c3, c4⟩ := hc
    exact ⟨((x : ℤ) - iconXOff cropped s su).toNat,
      ((y : ℤ) - iconYOff cropped s su).toNat, by omega, by omega, rfl⟩
  case isFalse hc => exact Or.inl rfl

theorem icon_always_target_size_witness :
    ∃ icon, create_icon_from_cropped (fun _ _ _ _ _ => (0, 0, 0))
        ⟨1, 1, fun _ _ => (0, 0, 0)⟩ (0, 0, 0) 2 3 = .ok icon ∧
      icon.width = 2 ∧ icon.height = 2 ∧
      ∀ x y, x < 2 → y < 2 →
        icon.pix x y = iconFill (0, 0, 0) ∨
        ∃ u v, u < (iconNewW ⟨1, 1, fun _ _ => (0, 0, 0)⟩ 2 3).toNat ∧
          v < (iconNewH ⟨1, 1, fun _ _ => (0, 0, 0)⟩ 2 3).toNat ∧
          icon.pix x y = (fun (_ : Img) (_ _ _ _ : ℕ) => ((0 : ℚ), (0 : ℚ), (0 : ℚ)))
            ⟨1, 1, fun _ _ => (0, 0, 0)⟩
            (iconNewW ⟨1, 1, fun _ _ => (0, 0, 0)⟩ 2 3).toNat
            (iconNewH ⟨1, 1, fun _ _ => (0, 0, 0)⟩ 2 3).toNat u v :=
  icon_always_target_size (fun _ _ _ _ _ => (0, 0, 0))
    ⟨1, 1, fun _ _ => (0, 0, 0)⟩ (0, 0, 0) 2 3
    (by norm_num) (by norm_num) (by norm_num)

/-- C7 (amended): the canvas is filled uniformly with the background color
truncated toward zero per channel (Python `int(c)`) — not rounded to the
nearest integer: every canvas pixel outside the pasted content rectangle
equals the channel-wise truncation `pyInt` of the background color. The
rule is still deterministic, but it is truncation, not nearest-rounding. -/
theorem icon_fill_truncates (resample : Img → ℕ → ℕ → ℕ → ℕ → Col)
    (cropped : Img) (bg : Col) (s : ℕ) (su : ℚ) (icon : Img)
    (hok : create_icon_from_cropped resample cropped bg s su = .ok icon)
    (x y : ℕ)
    (hout : ¬(iconXOff cropped s su ≤ (x : ℤ) ∧
        (x : ℤ) < iconXOff cropped s su + iconNewW cropped s su ∧
        iconYOff cropped s su ≤ (y : ℤ) ∧
        (y : ℤ) < iconYOff cropped s su + iconNewH cropped s su)) :
    icon.pix x y = ((pyInt bg.1 : ℚ), (pyInt bg.2.1 : ℚ), (pyInt bg.2.2 : ℚ)) := by
  rw [create_icon_from_cropped] at hok
  by_cases h : max cropped.width cropped.height = 0
  · rw [if_pos h] at hok
    simp at hok
  · rw [if_neg h] at hok
    injection hok with h2
    subst h2
    simp only
    rw [if_neg hout]
    rfl

theorem icon_fill_truncates_witness :
    ∃ icon, create_icon_from_cropped (fun _ _ _ _ _ => (5, 5, 5))
        ⟨1, 1, fun _ _ => (0, 0, 0)⟩ (9/10, 9/10, 9/10) 4 (1/2) = .ok icon ∧
      icon.pix 0 0 =
        ((pyInt (9/10 : ℚ) : ℚ), (pyInt (9/10 : ℚ) : ℚ), (pyInt (9/10 : ℚ) : ℚ)) := by
  obtain ⟨icon, hok, -, -⟩ := create_icon_ok (fun _ _ _ _ _ => (5, 5, 5))
    ⟨1, 1, fun _ _ => (0, 0, 0)⟩ (9/10, 9/10, 9/10) 4 (1/2) (by decide)
  refine ⟨icon, hok, icon_fill_truncates _ _ _ _ _ icon hok 0 0 ?_⟩
  have hW : iconNewW ⟨1, 1, fun _ _ => (0, 0, 0)⟩ 4 (1/2) = 2 :=
    iconNewW_compute _ _ _ 2 (by simp only [iconScale]; norm_num) (by norm_num)
  have hxoff : iconXOff ⟨1, 1, fun _ _ => (0, 0, 0)⟩ 4 (1/2) = 1 := by
    rw [iconXOff, hW]; rfl
  intro hcond
  rw [hxoff] at hcond
  norm_num at hcond

/-- C7 counterexample: pass the background color (9/10, 9/10, 9/10). The
canvas pixel (0, 0) lies outside the pasted content rectangle and shows
(0, 0, 0), because Python `int` truncates 0.9 to 0 — while rounding 0.9 to
the nearest integer under either rule the claim admits (half away from
zero, or half to even) gives 1. The canvas is therefore not filled with
the nearest-rounded background color. -/
theorem icon_fill_not_nearest :
    ∃ icon, create_icon_from_cropped (fun _ _ _ _ _ => (5, 5, 5))
        ⟨1, 1, fun _ _ => (0, 0, 0)⟩ (9/10, 9/10, 9/10) 4 (1/2) = .ok icon ∧
      icon.pix 0 0 = ((0 : ℚ), (0 : ℚ), (0 : ℚ)) ∧
      pyRound (9/10) = 1 ∧ roundHalfAway (9/10) = 1 := by
  have hW : iconNewW ⟨1, 1, fun _ _ => (0, 0, 0)⟩ 4 (1/2) = 2 :=
    iconNewW_compute _ _ _ 2 (by simp only [iconScale]; norm_num) (by norm_num)
  have hxoff : iconXOff ⟨1, 1, fun _ _ => (0, 0, 0)⟩ 4 (1/2) = 1 := by
    rw [iconXOff, hW]; rfl
  have h0 : pyInt (9/10 : ℚ) = 0 := by
    rw [pyInt, if_neg (by norm_num), Rat.floor_def]; norm_num
  rw [create_icon_from_cropped, if_neg (by decide)]
  refine ⟨_, rfl, ?_, ?_, ?_⟩
  · simp only
    split
    case isTrue hc =>
      exfalso
      rw [hxoff] at hc
      obtain ⟨c1, -, -, -⟩ := hc
      norm_num at c1
    case isFalse hc =>
      show iconFill (9/10, 9/10, 9/10) = ((0 : ℚ), (0 : ℚ), (0 : ℚ))
      rw [iconFill]
      norm_num [h0]
  · have hf : ⌊(9/10 : ℚ)⌋ = 0 := by rw [Rat.floor_def]; norm_num
    simp only [pyRound, hf]
    norm_num
  · rw [roundHalfAway, if_neg (by norm_num), Rat.floor_def]
    norm_num

theorem marginOf_zero_image (p : ℚ) :
    marginOf ⟨0, 0, fun _ _ => (0, 0, 0)⟩ p = 0 := by
  simp [marginOf, pyInt]

theorem analyze_zero_image (p : ℚ) :
    analyze_background_color ⟨0, 0, fun _ _ => (0, 0, 0)⟩ p = none := by
  simp only [analyze_background_color, marginOf_zero_image]
  rfl

theorem find_content_bbox_of_none (img : Img) (p tol : ℚ)
    (h : analyze_background_color img p = none) :
    find_content_bbox img p tol = (0, 0, img.width, img.height) := by
  unfold find_content_bbox
  rw [h]

/-- C8 counterexample: on the 0×0 image the core does not fail fast.
`analyze_background_color` returns the NaN mean (`none` — numpy emits only
a RuntimeWarning and returns NaN as an ordinary value), and
`find_content_bbox` returns the quadruple (0, 0, 0, 0); neither raises a
descriptive error. -/
theorem degenerate_inputs_no_error :
    analyze_background_color ⟨0, 0, fun _ _ => (0, 0, 0)⟩ 5 = none ∧
    find_content_bbox ⟨0, 0, fun _ _ => (0, 0, 0)⟩ 5 20 = (0, 0, 0, 0) :=
  ⟨analyze_zero_image 5, find_content_bbox_of_none _ _ _ (analyze_zero_image 5)⟩

/-- C8 (amended): only `create_icon_from_cropped` fails fast on a degenerate
input: a 0×0 crop raises `ZeroDivisionError` at `scale = ... / max_dim`.
`analyze_background_color` on a 0×0 image returns the NaN mean (`none`)
without raising, for every margin percentage, and `find_content_bbox`
returns the full (empty) bounds (0, 0, 0, 0) without raising, for every
margin percentage and tolerance. -/
theorem degenerate_inputs_behavior (p tol su : ℚ) (bg : Col) (s : ℕ)
    (resample : Img → ℕ → ℕ → ℕ → ℕ → Col) :
    analyze_background_color ⟨0, 0, fun _ _ => (0, 0, 0)⟩ p = none ∧
    find_content_bbox ⟨0, 0, fun _ _ => (0, 0, 0)⟩ p tol = (0, 0, 0, 0) ∧
    create_icon_from_cropped resample ⟨0, 0, fun _ _ => (0, 0, 0)⟩ bg s su =
      .error "ZeroDivisionError: float division by zero" := by
  refine ⟨analyze_zero_image p,
    find_content_bbox_of_none _ _ _ (analyze_zero_image p), ?_⟩
  unfold create_icon_from_cropped
  split
  · rfl
  · next h => exact absurd rfl h

theorem block_length (img : Img) (r0 r1 c0 c1 : ℕ) :
    (block img r0 r1 c0 c1).length = (r1 - r0) * (c1 - c0) := by
  simp only [block, List.length_flatMap, Function.comp_def, List.length_map,
    List.length_range]
  rw [List.map_const', List.sum_replicate, smul_eq_mul, List.length_range]

theorem mem_block (img : Img) (r0 r1 c0 c1 : ℕ) (q : Col) :
    q ∈ block img r0 r1 c0 c1 ↔
      ∃ i < r1 - r0, ∃ j < c1 - c0, q = img.pix (c0 + j) (r0 + i) := by
  simp only [block, List.mem_flatMap, List.mem_map, List.mem_range]
  constructor
  · rintro ⟨i, hi, j, hj, rfl⟩
    exact ⟨i, hi, j, hj, rfl⟩
  · rintro ⟨i, hi, j, hj, rfl⟩
    exact ⟨i, hi, j, hj, rfl⟩

theorem block_nil_right (img : Img) (r0 r1 c0 : ℕ) :
    block img r0 r1 c0 c0 = [] := by
  simp [block]

theorem listMeanColor_const (l : List Col) (c : Col) (hne : l.length ≠ 0)
    (hall : ∀ q ∈ l, q = c) : listMeanColor l = c := by
  have hq : ((l.length : ℚ)) ≠ 0 := Nat.cast_ne_zero.mpr hne
  have comp : ∀ f : Col → ℚ, ((l.map f).sum / l.length : ℚ) = f c := by
    intro f
    have h1 : l.map f = List.replicate l.length (f c) := by
      rw [List.eq_replicate_iff]
      refine ⟨by simp, ?_⟩
      intro b hb
      obtain ⟨a, ha, rfl⟩ := List.mem_map.mp hb
      rw [hall a ha]
    rw [h1, List.sum_replicate, nsmul_eq_mul, mul_comm, mul_div_assoc,
      div_self hq, mul_one]
  rw [listMeanColor, comp, comp, comp]

/-- The edge-pixel multiset as the spec describes it: all pixels in the top
`m` rows, bottom `m` rows, left `m` columns and right `m` columns (clipped
to the image), corners counted once per band they belong to. Written from
the claim's words, to be compared with `edgeSamples` (the numpy slices of
the code). -/
def specEdgeSamples (img : Img) (m : ℕ) : List Col :=
  block img 0 (min m img.height) 0 img.width
    ++ block img (img.height - m) img.height 0 img.width
    ++ block img 0 img.height 0 (min m img.width)
    ++ block img 0 img.height (img.width - m) img.width

/-- C3: for any image with both dimensions ≥ 1 and any margin percentage
whose computed margin `m` is ≥ 1, the sampler returns exactly the
channel-wise arithmetic mean over the multiset of pixels of the four edge
bands (top/bottom `m` rows, left/right `m` columns, corners counted once
per band), unrounded. -/
theorem analyze_mean_of_bands (img : Img) (p : ℚ)
    (hh : 1 ≤ img.height) (hw : 1 ≤ img.width) (hm : 1 ≤ marginOf img p) :
    analyze_background_color img p =
      some (listMeanColor (specEdgeSamples img (marginOf img p))) := by
  set m := marginOf img p with hmdef
  have he : edgeSamples img m = specEdgeSamples img m := by
    rw [edgeSamples, specEdgeSamples, if_neg (by omega), if_neg (by omega)]
  have hA : min m img.height * img.width ≠ 0 :=
    Nat.mul_ne_zero (by omega) (by omega)
  have hlen : ¬((edgeSamples img m).length = 0) := by
    rw [he]
    simp only [specEdgeSamples, List.length_append, block_length,
      Nat.sub_zero]
    omega
  simp only [analyze_background_color]
  rw [if_neg hlen, he]

theorem analyze_mean_of_bands_witness :
    1 ≤ marginOf ⟨4, 4, fun _ _ => (1, 2, 3)⟩ 50 ∧
    analyze_background_color ⟨4, 4, fun _ _ => (1, 2, 3)⟩ 50 =
      some (listMeanColor (specEdgeSamples ⟨4, 4, fun _ _ => (1, 2, 3)⟩
        (marginOf ⟨4, 4, fun _ _ => (1, 2, 3)⟩ 50))) := by
  have hm : marginOf ⟨4, 4, fun _ _ => (1, 2, 3)⟩ 50 = 2 := by
    have : ((min (4 : ℕ) 4 : ℕ) : ℚ) * 50 / 100 = ((2 : ℤ) : ℚ) := by norm_num
    rw [marginOf]
    show (pyInt (((min (4 : ℕ) 4 : ℕ) : ℚ) * 50 / 100)).toNat = 2
    rw [this, pyInt, if_neg (by norm_num), Int.floor_intCast]
    rfl
  exact ⟨by rw [hm]; norm_num,
    analyze_mean_of_bands ⟨4, 4, fun _ _ => (1, 2, 3)⟩ 50
      (by norm_num) (by norm_num) (by rw [hm]; norm_num)⟩

theorem block_nil_rows (img : Img) (r0 c0 c1 : ℕ) :
    block img r0 r0 c0 c1 = [] := by
  simp [block]

theorem listMeanColor_append_self (l : List Col) :
    listMeanColor (l ++ l) = listMeanColor l := by
  have comp : ∀ f : Col → ℚ,
      (((l ++ l).map f).sum / ((l ++ l).length : ℚ)) =
        ((l.map f).sum / (l.length : ℚ)) := by
    intro f
    rw [List.map_append, List.sum_append, List.length_append]
    push_cast
    rw [show ((l.map f).sum + (l.map f).sum : ℚ) = 2 * (l.map f).sum by ring,
      show ((l.length : ℚ) + (l.length : ℚ)) = 2 * (l.length : ℚ) by ring,
      mul_div_mul_left _ _ two_ne_zero]
  rw [listMeanColor, listMeanColor, comp, comp, comp]

theorem edgeSamples_full_of_zero (img : Img) :
    edgeSamples img 0 =
      block img 0 img.height 0 img.width ++ block img 0 img.height 0 img.width := by
  rw [edgeSamples, if_pos rfl, if_pos rfl, Nat.zero_min, Nat.zero_min,
    block_nil_rows, block_nil_right]
  simp

/-- C10: when the computed margin is 0, no edge band is sampled: the top
and left strips are empty, the `[-0:]` slices for the bottom and right
strips select the entire image, so the collected sample is the whole image
twice and the returned value is the channel-wise mean over all pixels of
the whole image. -/
theorem analyze_zero_margin (img : Img) (p : ℚ)
    (hh : 1 ≤ img.height) (hw : 1 ≤ img.width) (hm : marginOf img p = 0) :
    edgeSamples img (marginOf img p) =
      block img 0 img.height 0 img.width ++
        block img 0 img.height 0 img.width ∧
    (edgeSamples img (marginOf img p)).length = 2 * (img.height * img.width) ∧
    analyze_background_color img p =
      some (listMeanColor (block img 0 img.height 0 img.width)) := by
  have hfl : (block img 0 img.height 0 img.width).length =
      img.height * img.width := by
    rw [block_length, Nat.sub_zero, Nat.sub_zero]
  have hlen : (edgeSamples img 0).length = 2 * (img.height * img.width) := by
    rw [edgeSamples_full_of_zero, List.length_append, hfl]; ring
  refine ⟨by rw [hm]; exact edgeSamples_full_of_zero img,
    by rw [hm]; exact hlen, ?_⟩
  simp only [analyze_background_color, hm]
  rw [if_neg (by rw [hlen]; positivity), edgeSamples_full_of_zero,
    listMeanColor_append_self _]

theorem analyze_zero_margin_witness :
    marginOf ⟨2, 2, fun x y => ((x : ℚ), (y : ℚ), 0)⟩ 5 = 0 ∧
    analyze_background_color ⟨2, 2, fun x y => ((x : ℚ), (y : ℚ), 0)⟩ 5 =
      some (listMeanColor
        (block ⟨2, 2, fun x y => ((x : ℚ), (y : ℚ), 0)⟩ 0 2 0 2)) := by
  have hm : marginOf ⟨2, 2, fun x y => ((x : ℚ), (y : ℚ), 0)⟩ 5 = 0 := by
    have h110 : ((min (2 : ℕ) 2 : ℕ) : ℚ) * 5 / 100 = 1/10 := by norm_num
    rw [marginOf]
    show (pyInt (((min (2 : ℕ) 2 : ℕ) : ℚ) * 5 / 100)).toNat = 0
    rw [h110, pyInt, if_neg (by norm_num), Rat.floor_def]
    norm_num
  exact ⟨hm, (analyze_zero_margin ⟨2, 2, fun x y => ((x : ℚ), (y : ℚ), 0)⟩ 5
    (by norm_num) (by norm_num) hm).2.2⟩

theorem block_pix_eq (img : Img) (r0 r1 c0 c1 : ℕ) (q : Col)
    (h : q ∈ block img r0 r1 c0 c1) : ∃ x y, q = img.pix x y := by
  obtain ⟨i, -, j, -, hq⟩ := (mem_block img r0 r1 c0 c1 q).mp h
  exact ⟨_, _, hq⟩

theorem mem_edgeSamples_const (img : Img) (m : ℕ) (c : Col)
    (hc : ∀ x y, img.pix x y = c) :
    ∀ q ∈ edgeSamples img m, q = c := by
  intro q hq
  simp only [edgeSamples, List.mem_append] at hq
  rcases hq with ((h | h) | h) | h <;>
    (obtain ⟨x, y, hq⟩ := block_pix_eq _ _ _ _ _ _ h; rw [hq, hc])

theorem mem_specEdgeSamples_const (img : Img) (m : ℕ) (c : Col)
    (hc : ∀ x y, img.pix x y = c) :
    ∀ q ∈ specEdgeSamples img m, q = c := by
  intro q hq
  simp only [specEdgeSamples, List.mem_append] at hq
  rcases hq with ((h | h) | h) | h <;>
    (obtain ⟨x, y, hq⟩ := block_pix_eq _ _ _ _ _ _ h; rw [hq, hc])

/-- C9: on a uniform-color 10×10 image with margin percent 5, the computed
margin floors to 0 pixels; the sampler does not fail on an empty mean and
returns the uniform color exactly — the same value that sampling an
explicit 1-pixel edge margin (the spec bands with m = 1) yields on this
image. -/
theorem analyze_uniform_10x10 (c : Col) :
    marginOf ⟨10, 10, fun _ _ => c⟩ 5 = 0 ∧
    analyze_background_color ⟨10, 10, fun _ _ => c⟩ 5 = some c ∧
    listMeanColor (specEdgeSamples ⟨10, 10, fun _ _ => c⟩ 1) = c := by
  have hm : marginOf ⟨10, 10, fun _ _ => c⟩ 5 = 0 := by
    have h12 : ((min (10 : ℕ) 10 : ℕ) : ℚ) * 5 / 100 = 1/2 := by norm_num
    rw [marginOf]
    show (pyInt (((min (10 : ℕ) 10 : ℕ) : ℚ) * 5 / 100)).toNat = 0
    rw [h12, pyInt, if_neg (by norm_num), Rat.floor_def]
    norm_num
  have hlen : (edgeSamples ⟨10, 10, fun _ _ => c⟩ 0).length = 200 := by
    rw [edgeSamples_full_of_zero, List.length_append, block_length]
    rfl
  refine ⟨hm, ?_, ?_⟩
  · simp only [analyze_background_color, hm]
    rw [if_neg (by rw [hlen]; norm_num),
      listMeanColor_const _ c (by rw [hlen]; norm_num)
        (mem_edgeSamples_const _ 0 c fun _ _ => rfl)]
  · exact listMeanColor_const _ c
      (by rw [specEdgeSamples, List.length_append, List.length_append,
        List.length_append, block_length, block_length, block_length,
        block_length]; simp)
      (mem_specEdgeSamples_const _ 1 c fun _ _ => rfl)

theorem mem_filter_range {n : ℕ} {P : ℕ → Bool} {x : ℕ} :
    x ∈ (List.range n).filter P ↔ x < n ∧ P x = true := by
  simp [List.mem_filter, List.mem_range]

theorem filter_range_sorted (n : ℕ) (P : ℕ → Bool) :
    ((List.range n).filter P).Pairwise (· < ·) :=
  (List.pairwise_lt_range n).filter P

theorem headQ_isSome (l : List ℕ) (h : l ≠ []) : ∃ a, l.head? = some a := by
  cases l with
  | nil => exact absurd rfl h
  | cons a t => exact ⟨a, rfl⟩

theorem headQ_mem {l : List ℕ} {a : ℕ} (h : l.head? = some a) : a ∈ l := by
  cases l with
  | nil => simp at h
  | cons b t =>
    rw [List.head?_cons] at h
    injection h with h
    subst h
    exact List.mem_cons_self _ _

theorem headQ_min : ∀ (l : List ℕ), l.Pairwise (· < ·) → ∀ a x : ℕ,
    l.head? = some a → x ∈ l → a ≤ x := by
  intro l hp a x ha hx
  cases l with
  | nil => cases hx
  | cons b t =>
    rw [List.head?_cons] at ha
    injection ha with ha
    subst ha
    cases hx with
    | head => exact Nat.le_refl _
    | tail _ h => exact Nat.le_of_lt ((List.pairwise_cons.mp hp).1 x h)

theorem getLastQ_isSome : ∀ (l : List ℕ), l ≠ [] → ∃ a, l.getLast? = some a := by
  intro l
  induction l with
  | nil => intro h; exact absurd rfl h
  | cons a t ih =>
    intro _
    cases t with
    | nil => exact ⟨a, rfl⟩
    | cons a2 t2 =>
      obtain ⟨c, hc⟩ := ih (by simp)
      exact ⟨c, by rw [List.getLast?_cons_cons]; exact hc⟩

theorem getLastQ_mem : ∀ {l : List ℕ} {a : ℕ}, l.getLast? = some a → a ∈ l := by
  intro l
  induction l with
  | nil => intro a h; simp at h
  | cons c t ih =>
    intro a h
    cases t with
    | nil =>
      rw [List.getLast?_singleton] at h
      injection h with h
      subst h
      exact List.mem_cons_self _ _
    | cons c2 t2 =>
      rw [List.getLast?_cons_cons] at h
      exact List.mem_cons_of_mem c (ih h)

theorem le_getLastQ : ∀ (l : List ℕ), l.Pairwise (· < ·) → ∀ a x : ℕ,
    l.getLast? = some a → x ∈ l → x ≤ a := by
  intro l
  induction l with
  | nil => intro _ a x _ hx; cases hx
  | cons c t ih =>
    intro hp a x ha hx
    cases t with
    | nil =>
      rw [List.getLast?_singleton] at ha
      injection ha with ha
      subst ha
      cases hx with
      | head => exact Nat.le_refl _
      | tail _ h => cases h
    | cons c2 t2 =>
      rw [List.getLast?_cons_cons] at ha
      have hp2 := List.pairwise_cons.mp hp
      cases hx with
      | head => exact Nat.le_of_lt (hp2.1 a (getLastQ_mem ha))
      | tail _ h => exact ih hp2.2 a x ha h

theorem mem_contentRows (img : Img) (bg : Col) (tol : ℚ) (y : ℕ) :
    y ∈ contentRows img bg tol ↔
      y < img.height ∧ ∃ x, x < img.width ∧
        isContent (img.pix x y) bg tol = true := by
  rw [contentRows, mem_filter_range]
  simp [List.any_eq_true, List.mem_range]

theorem mem_contentCols (img : Img) (bg : Col) (tol : ℚ) (x : ℕ) :
    x ∈ contentCols img bg tol ↔
      x < img.width ∧ ∃ y, y < img.height ∧
        isContent (img.pix x y) bg tol = true := by
  rw [contentCols, mem_filter_range]
  simp [List.any_eq_true, List.mem_range]

theorem find_content_bbox_of_some (img : Img) (p tol : ℚ) (bg : Col)
    (h : analyze_background_color img p = some bg) :
    find_content_bbox img p tol =
      if (contentRows img bg tol).isEmpty || (contentCols img bg tol).isEmpty
      then (0, 0, img.width, img.height)
      else ((contentCols img bg tol).head?.getD 0,
            (contentRows img bg tol).head?.getD 0,
            (contentCols img bg tol).getLast?.getD 0 + 1,
            (contentRows img bg tol).getLast?.getD 0 + 1) := by
  unfold find_content_bbox
  rw [h]

/-- C5: when no pixel's color distance to the sampled background exceeds
the tolerance, `find_content_bbox` returns the full image bounds
(0, 0, width, height) as a graceful fallback value, not an error. -/
theorem bbox_no_content (img : Img) (p tol : ℚ) (bg : Col)
    (hbg : analyze_background_color img p = some bg)
    (hnone : ∀ x y, x < img.width → y < img.height →
      isContent (img.pix x y) bg tol = false) :
    find_content_bbox img p tol = (0, 0, img.width, img.height) := by
  have hrows : contentRows img bg tol = [] := by
    rw [contentRows, List.filter_eq_nil_iff]
    intro y hy
    simp only [List.any_eq_true, List.mem_range, not_exists, not_and,
      Bool.not_eq_true]
    intro x hx
    exact hnone x y hx (List.mem_range.mp hy)
  have hcols : contentCols img bg tol = [] := by
    rw [contentCols, List.filter_eq_nil_iff]
    intro x hx
    simp only [List.any_eq_true, List.mem_range, not_exists, not_and,
      Bool.not_eq_true]
    intro y hy
    exact hnone x y (List.mem_range.mp hx) hy
  rw [find_content_bbox_of_some img p tol bg hbg, hrows, hcols]
  simp

theorem bbox_no_content_witness :
    find_content_bbox ⟨2, 2, fun _ _ => (7, 7, 7)⟩ 50 20 = (0, 0, 2, 2) := by
  have hm : marginOf ⟨2, 2, fun _ _ => (7, 7, 7)⟩ 50 = 1 := by
    have h1 : ((min (2 : ℕ) 2 : ℕ) : ℚ) * 50 / 100 = ((1 : ℤ) : ℚ) := by
      norm_num
    rw [marginOf]
    show (pyInt (((min (2 : ℕ) 2 : ℕ) : ℚ) * 50 / 100)).toNat = 1
    rw [h1, pyInt, if_neg (by norm_num), Int.floor_intCast]
    rfl
  have hbg : analyze_background_color ⟨2, 2, fun _ _ => (7, 7, 7)⟩ 50 =
      some (7, 7, 7) := by
    have hlen : (edgeSamples ⟨2, 2, fun _ _ => (7, 7, 7)⟩ 1).length = 8 := by
      rw [edgeSamples, List.length_append, List.length_append,
        List.length_append, block_length, block_length, block_length,
        block_length]
      decide
    simp only [analyze_background_color, hm]
    rw [if_neg (by rw [hlen]; norm_num),
      listMeanColor_const _ (7, 7, 7) (by rw [hlen]; norm_num)
        (mem_edgeSamples_const _ 1 (7, 7, 7) fun _ _ => rfl)]
  refine bbox_no_content ⟨2, 2, fun _ _ => (7, 7, 7)⟩ 50 20 (7, 7, 7) hbg ?_
  intro x y _ _
  show isContent (7, 7, 7) (7, 7, 7) 20 = false
  rw [isContent, if_neg (by norm_num)]
  simp only [decide_eq_false_iff_not, not_lt, dist2]
  norm_num

/-- C2: for every image with a sampled background color and at least one
pixel whose color distance to it exceeds the tolerance, the quadruple
(left, top, right, bottom) returned by `find_content_bbox` is the smallest
axis-aligned bounding box of the content pixels, computed by row/column
projection: it encloses every content pixel (right/bottom exclusive);
`left` and `top` are the first content-bearing column and row; `right - 1`
and `bottom - 1` are the last content-bearing column and row; and the box
is nonempty and contained in the image. -/
theorem bbox_tight (img : Img) (p tol : ℚ) (bg : Col)
    (hbg : analyze_background_color img p = some bg)
    (x0 y0 : ℕ) (hx0 : x0 < img.width) (hy0 : y0 < img.height)
    (hc0 : isContent (img.pix x0 y0) bg tol = true)
    (l t r b : ℕ) (hbox : find_content_bbox img p tol = (l, t, r, b)) :
    (∀ x y, x < img.width → y < img.height →
        isContent (img.pix x y) bg tol = true →
        l ≤ x ∧ x < r ∧ t ≤ y ∧ y < b) ∧
    (∃ y, y < img.height ∧ isContent (img.pix l y) bg tol = true) ∧
    (∃ y, y < img.height ∧ isContent (img.pix (r - 1) y) bg tol = true) ∧
    (∃ x, x < img.width ∧ isContent (img.pix x t) bg tol = true) ∧
    (∃ x, x < img.width ∧ isContent (img.pix x (b - 1)) bg tol = true) ∧
    l < r ∧ t < b ∧ r ≤ img.width ∧ b ≤ img.height := by
  have hy0mem : y0 ∈ contentRows img bg tol :=
    (mem_contentRows img bg tol y0).mpr ⟨hy0, x0, hx0, hc0⟩
  have hx0mem : x0 ∈ contentCols img bg tol :=
    (mem_contentCols img bg tol x0).mpr ⟨hx0, y0, hy0, hc0⟩
  have hrne : contentRows img bg tol ≠ [] := List.ne_nil_of_mem hy0mem
  have hcne : contentCols img bg tol ≠ [] := List.ne_nil_of_mem hx0mem
  have hrpw : (contentRows img bg tol).Pairwise (· < ·) := by
    rw [contentRows]; exact filter_range_sorted _ _
  have hcpw : (contentCols img bg tol).Pairwise (· < ·) := by
    rw [contentCols]; exact filter_range_sorted _ _
  obtain ⟨t0, ht0⟩ := headQ_isSome _ hrne
  obtain ⟨l0, hl0⟩ := headQ_isSome _ hcne
  obtain ⟨b0, hb0⟩ := getLastQ_isSome _ hrne
  obtain ⟨r0, hr0⟩ := getLastQ_isSome _ hcne
  rw [find_content_bbox_of_some img p tol bg hbg] at hbox
  rw [if_neg (by
    simp only [Bool.or_eq_true, List.isEmpty_iff]
    exact not_or.mpr ⟨hrne, hcne⟩)] at hbox
  rw [hl0, ht0, hr0, hb0] at hbox
  simp only [Option.getD_some] at hbox
  injection hbox with h1 hbox
  injection hbox with h2 hbox
  injection hbox with h3 h4
  subst h1; subst h2; subst h3; subst h4
  have hl0mem := headQ_mem hl0
  have ht0mem := headQ_mem ht0
  have hr0mem := getLastQ_mem hr0
  have hb0mem := getLastQ_mem hb0
  refine ⟨?_, ?_, ?_, ?_, ?_, ?_, ?_, ?_, ?_⟩
  · intro x y hx hy hc
    have hxc : x ∈ contentCols img bg tol :=
      (mem_contentCols img bg tol x).mpr ⟨hx, y, hy, hc⟩
    have hyc : y ∈ contentRows img bg tol :=
      (mem_contentRows img bg tol y).mpr ⟨hy, x, hx, hc⟩
    exact ⟨headQ_min _ hcpw l0 x hl0 hxc,
      Nat.lt_succ_of_le (le_getLastQ _ hcpw r0 x hr0 hxc),
      headQ_min _ hrpw t0 y ht0 hyc,
      Nat.lt_succ_of_le (le_getLastQ _ hrpw b0 y hb0 hyc)⟩
  · obtain ⟨-, y1, hy1, hcy1⟩ := (mem_contentCols img bg tol l0).mp hl0mem
    exact ⟨y1, hy1, hcy1⟩
  · rw [Nat.add_sub_cancel]
    obtain ⟨-, y1, hy1, hcy1⟩ := (mem_contentCols img bg tol r0).mp hr0mem
    exact ⟨y1, hy1, hcy1⟩
  · obtain ⟨-, x1, hx1, hcx1⟩ := (mem_contentRows img bg tol t0).mp ht0mem
    exact ⟨x1, hx1, hcx1⟩
  · rw [Nat.add_sub_cancel]
    obtain ⟨-, x1, hx1, hcx1⟩ := (mem_contentRows img bg tol b0).mp hb0mem
    exact ⟨x1, hx1, hcx1⟩
  · exact Nat.lt_succ_of_le (Nat.le_trans
      (headQ_min _ hcpw l0 x0 hl0 hx0mem)
      (le_getLastQ _ hcpw r0 x0 hr0 hx0mem))
  · exact Nat.lt_succ_of_le (Nat.le_trans
      (headQ_min _ hrpw t0 y0 ht0 hy0mem)
      (le_getLastQ _ hrpw b0 y0 hb0 hy0mem))
  · exact Nat.succ_le_of_lt ((mem_contentCols img bg tol r0).mp hr0mem).1
  · exact Nat.succ_le_of_lt ((mem_contentRows img bg tol b0).mp hb0mem).1

theorem bbox_tight_witness :
    (∀ x y, x < 2 → y < 2 →
        isContent ((⟨2, 2, fun _ _ => (0, 0, 0)⟩ : Img).pix x y)
          (0, 0, 0) (-1) = true →
        0 ≤ x ∧ x < 2 ∧ 0 ≤ y ∧ y < 2) ∧
    (∃ y, y < 2 ∧ isContent ((⟨2, 2, fun _ _ => (0, 0, 0)⟩ : Img).pix 0 y)
        (0, 0, 0) (-1) = true) ∧
    (∃ y, y < 2 ∧ isContent ((⟨2, 2, fun _ _ => (0, 0, 0)⟩ : Img).pix (2 - 1) y)
        (0, 0, 0) (-1) = true) ∧
    (∃ x, x < 2 ∧ isContent ((⟨2, 2, fun _ _ => (0, 0, 0)⟩ : Img).pix x 0)
        (0, 0, 0) (-1) = true) ∧
    (∃ x, x < 2 ∧ isContent ((⟨2, 2, fun _ _ => (0, 0, 0)⟩ : Img).pix x (2 - 1))
        (0, 0, 0) (-1) = true) ∧
    0 < 2 ∧ 0 < 2 ∧ 2 ≤ 2 ∧ 2 ≤ 2 := by
  have hct : ∀ q : Col, isContent q (0, 0, 0) (-1) = true := fun q => by
    rw [isContent, if_pos (by norm_num)]
  have hm : marginOf ⟨2, 2, fun _ _ => (0, 0, 0)⟩ 50 = 1 := by
    have h1 : ((min (2 : ℕ) 2 : ℕ) : ℚ) * 50 / 100 = ((1 : ℤ) : ℚ) := by
      norm_num
    rw [marginOf]
    show (pyInt (((min (2 : ℕ) 2 : ℕ) : ℚ) * 50 / 100)).toNat = 1
    rw [h1, pyInt, if_neg (by norm_num), Int.floor_intCast]
    rfl
  have hbg : analyze_background_color ⟨2, 2, fun _ _ => (0, 0, 0)⟩ 50 =
      some (0, 0, 0) := by
    have hlen : (edgeSamples ⟨2, 2, fun _ _ => (0, 0, 0)⟩ 1).length = 8 := by
      rw [edgeSamples, List.length_append, List.length_append,
        List.length_append, block_length, block_length, block_length,
        block_length]
      decide
    simp only [analyze_background_color, hm]
    rw [if_neg (by rw [hlen]; norm_num),
      listMeanColor_const _ (0, 0, 0) (by rw [hlen]; norm_num)
        (mem_edgeSamples_const _ 1 (0, 0, 0) fun _ _ => rfl)]
  have hbox : find_content_bbox ⟨2, 2, fun _ _ => (0, 0, 0)⟩ 50 (-1) =
      (0, 0, 2, 2) := by
    rw [find_content_bbox_of_some _ _ _ _ hbg]
    have hrows : contentRows ⟨2, 2, fun _ _ => (0, 0, 0)⟩ (0, 0, 0) (-1) =
        [0, 1] := by
      rw [contentRows]
      simp only [hct]
      rfl
    have hcols : contentCols ⟨2, 2, fun _ _ => (0, 0, 0)⟩ (0, 0, 0) (-1) =
        [0, 1] := by
      rw [contentCols]
      simp only [hct]
      rfl
    rw [hrows, hcols]
    decide
  exact bbox_tight ⟨2, 2, fun _ _ => (0, 0, 0)⟩ 50 (-1) (0, 0, 0) hbg
    0 0 (by norm_num) (by norm_num) (hct _) 0 0 2 2 hbox
